import Mathlib

/-!
Shallow embedding of `bevy_microphone` (src/src/lib.rs) and proofs about it.

The repository captures audio from an input device, accumulates raw samples
in a buffer inside the device callback, optionally resamples them, encodes
fixed-size frames into packets, and hands the packets over a channel to a
consumer that decodes them.  Samples are modelled as rationals, packets as
byte lists, and the external opus/rubato libraries as oracle functions with
their boundary contracts stated as hypotheses.
-/

namespace BevyMicrophone

/-- `SampleRate` enumeration (src/src/lib.rs lines 77-85). -/
inductive SampleRate where
  | SR48
  | SR24
  | SR16
  | SR12
  | SR8
deriving DecidableEq, Repr

/-- `SampleRate::get_number` (src/src/lib.rs lines 87-95): the kHz multiplier. -/
def SampleRate.get_number : SampleRate → Nat
  | .SR48 => 48
  | .SR24 => 24
  | .SR16 => 16
  | .SR12 => 12
  | .SR8 => 8

/-- `FrameSize` enumeration (src/src/lib.rs lines 97-106). -/
inductive FrameSize where
  | FS2880
  | FS1920
  | FS960
  | FS480
  | FS240
  | FS120
deriving DecidableEq, Repr

/-- `FrameSize::get_number` (src/src/lib.rs lines 108-117): reference sample
count at 48 kHz. -/
def FrameSize.get_number : FrameSize → Nat
  | .FS2880 => 2880
  | .FS1920 => 1920
  | .FS960 => 960
  | .FS480 => 480
  | .FS240 => 240
  | .FS120 => 120

/-- `FrameSize::size` (src/src/lib.rs lines 118-120): frame length at a given
target sample rate. -/
def FrameSize.size (self : FrameSize) (sample_rate : SampleRate) : Nat :=
  self.get_number * sample_rate.get_number / 48

/-- `FrameSize::time` (src/src/lib.rs lines 121-123): pacing interval in
microseconds. -/
def FrameSize.time (self : FrameSize) : Nat :=
  self.get_number * 1000 / 48

/-- `FrameSize::get_input` (src/src/lib.rs lines 124-126): device-side frame
length for a device running at `sample_rate` Hz. -/
def FrameSize.get_input (self : FrameSize) (sample_rate : Nat) : Nat :=
  sample_rate * self.get_number / 48000

/-- opus `Channels` (external crate boundary, used by `AudioSettings`). -/
inductive Channels where
  | Mono
  | Stereo
deriving DecidableEq, Repr

/-- opus `Application` (external crate boundary, used by `AudioSettings`). -/
inductive Application where
  | Voip
  | Audio
  | LowDelay
deriving DecidableEq, Repr

/-- `AudioSettings` (src/src/lib.rs lines 69-76).  Fields exactly as in the
source: there is no enabled/disabled flag. -/
structure AudioSettings where
  input_device : Option String
  channels : Channels
  frame_size : FrameSize
  sample_rate : SampleRate
  application : Application

/-- `impl Default for AudioSettings` (src/src/lib.rs lines 128-138). -/
def AudioSettings.defaultSettings : AudioSettings where
  input_device := none
  channels := Channels.Mono
  frame_size := FrameSize.FS480
  sample_rate := SampleRate.SR48
  application := Application.Audio

/-- The shared flags owned by `AudioManager` (src/src/lib.rs lines 58-63):
the `kill` and `stop` atomic booleans, initialised to `false` in
`AudioManager::new` (lines 178-181). -/
structure ManagerFlags where
  kill : Bool
  stop : Bool
deriving DecidableEq, Repr

/-- `AudioManager::kill` (src/src/lib.rs lines 140-142): stores `true` into
the kill flag. -/
def ManagerFlags.killStore (m : ManagerFlags) : ManagerFlags :=
  { m with kill := true }

/-- `AudioManager::stop` (src/src/lib.rs lines 320-322): stores `b` into the
stop flag. -/
def ManagerFlags.stopStore (m : ManagerFlags) (b : Bool) : ManagerFlags :=
  { m with stop := b }

/-- `impl Drop for AudioManager` (src/src/lib.rs lines 64-68): dropping the
manager calls `self.kill()`. -/
def ManagerFlags.dropManager (m : ManagerFlags) : ManagerFlags :=
  m.killStore

/-- Result of one device-callback invocation: the final per-frame stage state,
the leftover accumulation buffer (`extra`), the packets sent through the
channel, the number of `encode_float` invocations, and the raw input frames
consumed from the front of the buffer (one per encode invocation). -/
structure CallbackOut (σ : Type) where
  st : σ
  extra : List ℚ
  packets : List (List Nat)
  encodes : Nat
  frames : List (List ℚ)

/-- The `while extra.len() >= input_frame_size` drain loop of the device
callback (src/src/lib.rs lines 229-256).  Each iteration takes the oldest
`ifs` samples from the front of `extra`, runs the per-frame stage `step`
(resample-if-present then `encoder.encode_float`; `none` models an `Err`
result, `some bs` an `Ok` with compressed bytes `bs`), sends the packet when
the encoded length is nonzero, then drains `ifs` samples.  The source loop
does not terminate when `input_frame_size = 0`, so the model only recurses
under the guard `0 < ifs`. -/
def encodeLoop (ifs : Nat) (step : σ → List ℚ → σ × Option (List Nat))
    (st : σ) (extra : List ℚ) : CallbackOut σ :=
  if _h : 0 < ifs ∧ ifs ≤ extra.length then
    let frame := extra.take ifs
    let res := step st frame
    let rest := encodeLoop ifs step res.1 (extra.drop ifs)
    { st := rest.st
      extra := rest.extra
      packets :=
        match res.2 with
        | some bs => if bs.length ≠ 0 then bs :: rest.packets else rest.packets
        | none => rest.packets
      encodes := rest.encodes + 1
      frames := frame :: rest.frames }
  else
    { st := st, extra := extra, packets := [], encodes := 0, frames := [] }
termination_by extra.length
decreasing_by
  simp only [List.length_drop]
  omega

/-- One invocation of the input-stream callback (src/src/lib.rs lines
223-257).  If the stop flag is set the callback clears `extra` and returns
without touching the pipeline; otherwise it appends the newly delivered
samples verbatim (`extra.extend(data)`) and runs the drain loop. -/
def deviceCallback (ifs : Nat) (step : σ → List ℚ → σ × Option (List Nat))
    (stop : Bool) (st : σ) (extra data : List ℚ) : CallbackOut σ :=
  if stop then
    { st := st, extra := [], packets := [], encodes := 0, frames := [] }
  else
    encodeLoop ifs step st (extra ++ data)

/-- Repeated callback invocations (stop flag clear) over a list of delivered
chunks, threading the stage state and the accumulation buffer and summing the
encode invocations. -/
def feedChunks (ifs : Nat) (step : σ → List ℚ → σ × Option (List Nat))
    (st : σ) (extra : List ℚ) : List (List ℚ) → σ × List ℚ × Nat
  | [] => (st, extra, 0)
  | data :: rest =>
    let out := deviceCallback ifs step false st extra data
    let next := feedChunks ifs step out.st out.extra rest
    (next.1, next.2.1, out.encodes + next.2.2)

/-- One poll of the capture thread's pacing loop (src/src/lib.rs lines
266-271): the loop body reads only the kill flag; it returns (exits the
thread) exactly when the flag is `true`, and otherwise sleeps one pacing
interval.  The stop flag is not consulted. -/
def pacingPollExits (kill : Bool) : Bool :=
  kill

/-- The pacing loop itself (src/src/lib.rs lines 266-271), run against the
sequence of values the kill flag has at successive polls.  `fuel` bounds the
unrolling (the source loop runs forever while the flag stays `false`);
the result is `some i` when the loop returns at poll index `i` (having slept
`i` pacing intervals), `none` when the flag was never seen `true` within
`fuel` polls. -/
def pacingLoop (kill : Nat → Bool) (i : Nat) : Nat → Option Nat
  | 0 => none
  | fuel + 1 =>
    if pacingPollExits (kill i) then some i
    else pacingLoop kill (i + 1) fuel

/-- The shared body of `try_recv_audio_decode` (src/src/lib.rs lines 323-335)
and `recv_audio_decode` (lines 336-348): map the decoder over a sequence of
received packets.  `dec` models `Decoder::decode_float` into the 2048-sample
scratch buffer (`none` for `Err`, `some len` for `Ok(len)`); a packet whose
decode errs or yields length 0 delivers nothing to the sink; otherwise the
sink receives the slice `out[..len]`, recorded here by its length.  Returns
the final decoder state and the lengths of the slices delivered, in order. -/
def decodeDeliveries (dec : σ → List Nat → σ × Option Nat) :
    σ → List (List Nat) → σ × List Nat
  | st, [] => (st, [])
  | st, p :: rest =>
    let res := dec st p
    let next := decodeDeliveries dec res.1 rest
    match res.2 with
    | some len => if len ≠ 0 then (next.1, len :: next.2) else next
    | none => next

/-- `AudioManager::decode` (src/src/lib.rs lines 349-359): decode one
caller-supplied packet; deliver `out[..len]` to the sink only on `Ok(len)`
with `len != 0`.  Returns the new decoder state and the delivered slice
length, if any. -/
def decodeOne (dec : σ → List Nat → σ × Option Nat) (st : σ)
    (data : List Nat) : σ × Option Nat :=
  let res := dec st data
  match res.2 with
  | some len => if len ≠ 0 then (res.1, some len) else (res.1, none)
  | none => (res.1, none)

/-- The resample branch of the callback (src/src/lib.rs lines 230-246):
`process_into_buffer` writes the produced samples (`written`) into the front
of the output view `&mut buffer[..frame_size]`; its returned
(consumed, produced) counts are discarded by `.unwrap();`.  The slice then
handed to the encoder is `&buffer[..frame_size]`: the written samples
followed by whatever the scratch buffer previously held up to the nominal
frame length. -/
def resampledEncoderInput (buffer : List ℚ) (frame_size : Nat)
    (written : List ℚ) : List ℚ :=
  (written ++ (buffer.take frame_size).drop written.length).take frame_size

/-- Modelled from the spec: the slice the spec says reaches the encoder in
the resample branch — "this actual produced length, not the nominal frame
length, is what gets passed to the encoder" — i.e. exactly the samples the
resampler produced on this invocation. -/
def specResampledEncoderInput (written : List ℚ) : List ℚ :=
  written

/-- The scratch output buffer `let mut buffer = [0f32; 2880];`
(src/src/lib.rs line 220). -/
def scratchBuffer : List ℚ :=
  List.replicate 2880 0

/-- The channel count requested in the `StreamConfig` the callback is built
with (src/src/lib.rs lines 189-193): always 1. -/
def streamConfigChannels : Nat :=
  1

/-- How the callback turns the delivered slice into buffer content
(src/src/lib.rs line 228): `extra.extend(data)` — the samples are appended
verbatim, with no per-channel processing. -/
def callbackAppend (extra data : List ℚ) : List ℚ :=
  extra ++ data

/-- Modelled from the spec: stereo-to-mono down-mix by "averaging channel
pairs" — each consecutive pair of interleaved samples becomes their mean. -/
def downmixPairs : List ℚ → List ℚ
  | a :: b :: rest => (a + b) / 2 :: downmixPairs rest
  | _ => []

/-- Modelled from the spec: the append the spec describes for a device
delivering two channels — down-mix the delivered slice, then append. -/
def specDownmixAppend (extra data : List ℚ) : List ℚ :=
  extra ++ downmixPairs data

/-- What `AudioManager::new` (src/src/lib.rs lines 143-303) observably sets
up on the session side: `thread::spawn` is called unconditionally at line
182, and the two shared flags start `false`. -/
structure ManagerInit where
  threadSpawned : Bool
  flags : ManagerFlags
deriving DecidableEq, Repr

/-- `AudioManager::new` as far as the spawn decision and flag initialisation
are concerned: no field of `settings` is consulted before `thread::spawn`
for deciding whether to spawn. -/
def managerNew (_settings : AudioSettings) : ManagerInit where
  threadSpawned := true
  flags := { kill := false, stop := false }

/-- The panics the capture thread / device callback can hit through
`.unwrap()` calls in the source. -/
inductive CapturePanic where
  | encoderNewFailed
  | resamplerProcessFailed
deriving DecidableEq, Repr

/-- Thread setup step 5 (src/src/lib.rs lines 212-217):
`Encoder::new(...).unwrap()` — an `Err` from encoder construction
(modelled as `none`) panics the capture thread instead of the log-and-exit
path used for resampler construction failure (lines 203-208). -/
def encoderNewStep (encoderNew : Option Unit) : Except CapturePanic Unit :=
  match encoderNew with
  | some e => Except.ok e
  | none => Except.error CapturePanic.encoderNewFailed

/-- The per-frame resampler call inside the device callback
(src/src/lib.rs lines 243-245): `process_into_buffer(...).unwrap()` — an
`Err` from the per-call resampler (modelled as `none`) panics inside the
real-time callback. -/
def resampleProcessStep (processResult : Option (Nat × Nat)) :
    Except CapturePanic (Nat × Nat) :=
  match processResult with
  | some counts => Except.ok counts
  | none => Except.error CapturePanic.resamplerProcessFailed

/-! Helper lemmas about the drain loop and repeated callbacks. -/

theorem encodeLoop_base {σ : Type} (ifs : Nat)
    (step : σ → List ℚ → σ × Option (List Nat)) (st : σ) (extra : List ℚ)
    (h : ¬(0 < ifs ∧ ifs ≤ extra.length)) :
    encodeLoop ifs step st extra =
      { st := st, extra := extra, packets := [], encodes := 0, frames := [] } := by
  rw [encodeLoop]
  simp only [dif_neg h]

theorem encodeLoop_succ {σ : Type} (ifs : Nat)
    (step : σ → List ℚ → σ × Option (List Nat)) (st : σ) (extra : List ℚ)
    (h1 : 0 < ifs) (h2 : ifs ≤ extra.length) :
    encodeLoop ifs step st extra =
      { st := (encodeLoop ifs step (step st (extra.take ifs)).1 (extra.drop ifs)).st
        extra := (encodeLoop ifs step (step st (extra.take ifs)).1 (extra.drop ifs)).extra
        packets :=
          match (step st (extra.take ifs)).2 with
          | some bs =>
            if bs.length ≠ 0 then
              bs :: (encodeLoop ifs step (step st (extra.take ifs)).1 (extra.drop ifs)).packets
            else (encodeLoop ifs step (step st (extra.take ifs)).1 (extra.drop ifs)).packets
          | none => (encodeLoop ifs step (step st (extra.take ifs)).1 (extra.drop ifs)).packets
        encodes := (encodeLoop ifs step (step st (extra.take ifs)).1 (extra.drop ifs)).encodes + 1
        frames :=
          extra.take ifs ::
            (encodeLoop ifs step (step st (extra.take ifs)).1 (extra.drop ifs)).frames } := by
  rw [encodeLoop]
  simp only [dif_pos (And.intro h1 h2)]

theorem encodeLoop_encodes_div {σ : Type} (ifs : Nat)
    (step : σ → List ℚ → σ × Option (List Nat)) (h : 0 < ifs) :
    ∀ (n : Nat) (st : σ) (extra : List ℚ), extra.length ≤ n →
      (encodeLoop ifs step st extra).encodes = extra.length / ifs := by
  intro n
  induction n with
  | zero =>
    intro st extra hlen
    have hx : extra.length = 0 := Nat.le_zero.mp hlen
    rw [encodeLoop_base ifs step st extra (by omega)]
    simp [hx]
  | succ n ih =>
    intro st extra hlen
    by_cases hc : ifs ≤ extra.length
    · rw [encodeLoop_succ ifs step st extra h hc]
      have hdrop : (extra.drop ifs).length ≤ n := by
        simp only [List.length_drop]
        omega
      have hrec := ih (step st (extra.take ifs)).1 (extra.drop ifs) hdrop
      simp only [hrec, List.length_drop]
      exact (Nat.div_eq_sub_div h hc).symm
    · rw [encodeLoop_base ifs step st extra (by omega)]
      have : extra.length / ifs = 0 := Nat.div_eq_of_lt (by omega)
      simp [this]

theorem encodeLoop_extra_drop {σ : Type} (ifs : Nat)
    (step : σ → List ℚ → σ × Option (List Nat)) (h : 0 < ifs) :
    ∀ (n : Nat) (st : σ) (extra : List ℚ), extra.length ≤ n →
      (encodeLoop ifs step st extra).extra =
        extra.drop (ifs * (extra.length / ifs)) := by
  intro n
  induction n with
  | zero =>
    intro st extra hlen
    have hx : extra.length = 0 := Nat.le_zero.mp hlen
    rw [encodeLoop_base ifs step st extra (by omega)]
    simp [hx]
  | succ n ih =>
    intro st extra hlen
    by_cases hc : ifs ≤ extra.length
    · rw [encodeLoop_succ ifs step st extra h hc]
      have hdrop : (extra.drop ifs).length ≤ n := by
        simp only [List.length_drop]
        omega
      have hrec := ih (step st (extra.take ifs)).1 (extra.drop ifs) hdrop
      simp only [hrec, List.length_drop, List.drop_drop]
      have hq : extra.length / ifs = (extra.length - ifs) / ifs + 1 :=
        Nat.div_eq_sub_div h hc
      rw [hq, Nat.mul_add, Nat.mul_one]
      ring_nf
    · rw [encodeLoop_base ifs step st extra (by omega)]
      have : extra.length / ifs = 0 := Nat.div_eq_of_lt (by omega)
      simp [this]

theorem encodeLoop_frames_get {σ : Type} (ifs : Nat)
    (step : σ → List ℚ → σ × Option (List Nat)) (h : 0 < ifs) :
    ∀ (n : Nat) (st : σ) (extra : List ℚ), extra.length ≤ n →
      ∀ i : Nat, i < extra.length / ifs →
        (encodeLoop ifs step st extra).frames[i]? =
          some ((extra.drop (i * ifs)).take ifs) := by
  intro n
  induction n with
  | zero =>
    intro st extra hlen i hi
    have hx : extra.length = 0 := Nat.le_zero.mp hlen
    rw [hx] at hi
    simp at hi
  | succ n ih =>
    intro st extra hlen i hi
    by_cases hc : ifs ≤ extra.length
    · rw [encodeLoop_succ ifs step st extra h hc]
      cases i with
      | zero => simp
      | succ i =>
        have hdrop : (extra.drop ifs).length ≤ n := by
          simp only [List.length_drop]
          omega
        have hq : extra.length / ifs = (extra.length - ifs) / ifs + 1 :=
          Nat.div_eq_sub_div h hc
        have hi2 : i < (extra.drop ifs).length / ifs := by
          simp only [List.length_drop]
          omega
        have hrec := ih (step st (extra.take ifs)).1 (extra.drop ifs) hdrop i hi2
        simp only [List.getElem?_cons_succ]
        rw [hrec, List.drop_drop]
        congr 2
        ring_nf
    · exfalso
      have : extra.length / ifs = 0 := Nat.div_eq_of_lt (by omega)
      omega

theorem feedChunks_conservation {σ : Type} (ifs : Nat)
    (step : σ → List ℚ → σ × Option (List Nat)) (h : 0 < ifs) :
    ∀ (chunks : List (List ℚ)) (st : σ) (extra : List ℚ),
      ifs * (feedChunks ifs step st extra chunks).2.2 +
          (feedChunks ifs step st extra chunks).2.1.length =
        extra.length + (chunks.map List.length).sum := by
  intro chunks
  induction chunks with
  | nil =>
    intro st extra
    simp [feedChunks]
  | cons c rest ih =>
    intro st extra
    simp only [feedChunks, deviceCallback, if_neg, List.map_cons, List.sum_cons,
      Bool.false_eq_true, not_false_eq_true, ite_false]
    have henc := encodeLoop_encodes_div ifs step h (extra ++ c).length st (extra ++ c)
      (le_refl _)
    have hext := encodeLoop_extra_drop ifs step h (extra ++ c).length st (extra ++ c)
      (le_refl _)
    rw [henc, hext, Nat.mul_add, Nat.add_assoc]
    have ihh := ih (encodeLoop ifs step st (extra ++ c)).st
      ((extra ++ c).drop (ifs * ((extra ++ c).length / ifs)))
    rw [ihh, List.length_drop, List.length_append]
    have hdm := Nat.div_add_mod (extra ++ c).length ifs
    rw [List.length_append] at hdm
    have hmod := Nat.mod_lt (extra ++ c).length h
    rw [List.length_append] at hmod
    generalize ifs * ((extra.length + c.length) / ifs) = M at hdm ⊢
    omega

theorem feedChunks_leftover_lt {σ : Type} (ifs : Nat)
    (step : σ → List ℚ → σ × Option (List Nat)) (h : 0 < ifs) :
    ∀ (chunks : List (List ℚ)) (st : σ) (extra : List ℚ), chunks ≠ [] →
      (feedChunks ifs step st extra chunks).2.1.length < ifs := by
  intro chunks
  induction chunks with
  | nil =>
    intro st extra hne
    exact absurd rfl hne
  | cons c rest ih =>
    intro st extra _
    by_cases hr : rest = []
    · subst hr
      simp only [feedChunks, deviceCallback, Bool.false_eq_true, not_false_eq_true,
        ite_false]
      have hext := encodeLoop_extra_drop ifs step h (extra ++ c).length st (extra ++ c)
        (le_refl _)
      rw [hext, List.length_drop]
      have hdm := Nat.div_add_mod (extra ++ c).length ifs
      have hmod := Nat.mod_lt (extra ++ c).length h
      generalize ifs * ((extra ++ c).length / ifs) = M at hdm ⊢
      omega
    · simp only [feedChunks]
      exact ih _ _ hr

/-- C1: in the device callback, encoding happens only when the accumulated
sample count is at least the required input frame length; each encode call
consumes exactly one input frame's worth of the oldest samples from the front
of the buffer, any excess is retained for the next callback, and feeding the
buffer chunks summing to exactly `k` full frames yields exactly `k` encode
invocations with zero leftover. -/
theorem callback_frame_accumulation {σ : Type} (ifs : Nat)
    (step : σ → List ℚ → σ × Option (List Nat)) (st : σ) (hifs : 0 < ifs) :
    (∀ extra data : List ℚ, (extra ++ data).length < ifs →
        (deviceCallback ifs step false st extra data).encodes = 0 ∧
        (deviceCallback ifs step false st extra data).extra = extra ++ data) ∧
    (∀ extra data : List ℚ,
        (deviceCallback ifs step false st extra data).encodes =
          (extra ++ data).length / ifs ∧
        (deviceCallback ifs step false st extra data).extra =
          (extra ++ data).drop (ifs * ((extra ++ data).length / ifs)) ∧
        (∀ i : Nat, i < (extra ++ data).length / ifs →
          (deviceCallback ifs step false st extra data).frames[i]? =
            some (((extra ++ data).drop (i * ifs)).take ifs))) ∧
    (∀ (chunks : List (List ℚ)) (k : Nat),
        (chunks.map List.length).sum = k * ifs →
        (feedChunks ifs step st [] chunks).2.2 = k ∧
        (feedChunks ifs step st [] chunks).2.1 = []) := by
  refine ⟨?_, ?_, ?_⟩
  · intro extra data hlt
    simp only [deviceCallback, Bool.false_eq_true, not_false_eq_true, ite_false]
    rw [encodeLoop_base ifs step st (extra ++ data) (by omega)]
    exact ⟨rfl, rfl⟩
  · intro extra data
    simp only [deviceCallback, Bool.false_eq_true, not_false_eq_true, ite_false]
    exact ⟨encodeLoop_encodes_div ifs step hifs _ st _ (le_refl _),
      encodeLoop_extra_drop ifs step hifs _ st _ (le_refl _),
      fun i hi => encodeLoop_frames_get ifs step hifs _ st _ (le_refl _) i hi⟩
  · intro chunks k hsum
    cases chunks with
    | nil =>
      simp only [List.map_nil, List.sum_nil] at hsum
      have hk : k = 0 := by
        rcases Nat.mul_eq_zero.mp hsum.symm with hk | hk
        · exact hk
        · omega
      subst hk
      exact ⟨rfl, rfl⟩
    | cons c rest =>
      have hcons := feedChunks_conservation ifs step hifs (c :: rest) st []
      have hlt := feedChunks_leftover_lt ifs step hifs (c :: rest) st []
        (by simp)
      rw [hsum] at hcons
      simp only [List.length_nil, Nat.zero_add] at hcons
      have hEk : (feedChunks ifs step st [] (c :: rest)).2.2 ≤ k := by
        by_contra hgt
        push_neg at hgt
        have h1 : k + 1 ≤ (feedChunks ifs step st [] (c :: rest)).2.2 := hgt
        have h2 : ifs * (k + 1) ≤ ifs * (feedChunks ifs step st [] (c :: rest)).2.2 :=
          Nat.mul_le_mul_left ifs h1
        rw [Nat.mul_add, Nat.mul_one] at h2
        have h3 : ifs * k = k * ifs := Nat.mul_comm _ _
        omega
      obtain ⟨d, hd⟩ : ∃ d, k = (feedChunks ifs step st [] (c :: rest)).2.2 + d :=
        ⟨k - (feedChunks ifs step st [] (c :: rest)).2.2, by omega⟩
      rw [hd, Nat.add_mul] at hcons
      have hL : (feedChunks ifs step st [] (c :: rest)).2.1.length = d * ifs := by
        have := Nat.mul_comm ifs (feedChunks ifs step st [] (c :: rest)).2.2
        omega
      have hd0 : d = 0 := by
        by_contra hd0
        have : 1 ≤ d := Nat.one_le_iff_ne_zero.mpr hd0
        have : ifs ≤ d * ifs := by
          calc ifs = 1 * ifs := (Nat.one_mul ifs).symm
          _ ≤ d * ifs := Nat.mul_le_mul_right ifs this
        omega
      subst hd0
      refine ⟨by omega, ?_⟩
      have : (feedChunks ifs step st [] (c :: rest)).2.1.length = 0 := by omega
      exact List.eq_nil_of_length_eq_zero this

/-- Witness for `callback_frame_accumulation` at `ifs = 2` with a concrete
encode stage. -/
theorem callback_frame_accumulation_witness :
    0 < 2 ∧
    ((∀ extra data : List ℚ, (extra ++ data).length < 2 →
        (deviceCallback 2 (fun (u : Unit) (_f : List ℚ) => (u, some [1])) false ()
          extra data).encodes = 0 ∧
        (deviceCallback 2 (fun (u : Unit) (_f : List ℚ) => (u, some [1])) false ()
          extra data).extra = extra ++ data) ∧
    (∀ extra data : List ℚ,
        (deviceCallback 2 (fun (u : Unit) (_f : List ℚ) => (u, some [1])) false ()
          extra data).encodes = (extra ++ data).length / 2 ∧
        (deviceCallback 2 (fun (u : Unit) (_f : List ℚ) => (u, some [1])) false ()
          extra data).extra =
          (extra ++ data).drop (2 * ((extra ++ data).length / 2)) ∧
        (∀ i : Nat, i < (extra ++ data).length / 2 →
          (deviceCallback 2 (fun (u : Unit) (_f : List ℚ) => (u, some [1])) false ()
            extra data).frames[i]? =
            some (((extra ++ data).drop (i * 2)).take 2))) ∧
    (∀ (chunks : List (List ℚ)) (k : Nat),
        (chunks.map List.length).sum = k * 2 →
        (feedChunks 2 (fun (u : Unit) (_f : List ℚ) => (u, some [1])) () [] chunks).2.2
          = k ∧
        (feedChunks 2 (fun (u : Unit) (_f : List ℚ) => (u, some [1])) () [] chunks).2.1
          = [])) :=
  ⟨by decide,
    callback_frame_accumulation 2 (fun (u : Unit) (_f : List ℚ) => (u, some [1])) ()
      (by decide)⟩

/-- C2: for every frame size and sample rate in the closed enumerations,
`size` equals `reference_count * rate_khz / 48`, `time` equals
`reference_count * 1000 / 48` microseconds, and `get_input device_rate_hz`
equals `device_rate_hz * reference_count / 48000`; all three are total
functions of their enumerated arguments, illustrated at the spec's example
(FS960 at 24 kHz: 480 samples, 20000 µs pacing). -/
theorem frame_rate_arithmetic :
    (∀ (fs : FrameSize) (sr : SampleRate),
        fs.size sr = fs.get_number * sr.get_number / 48) ∧
    (∀ fs : FrameSize, fs.time = fs.get_number * 1000 / 48) ∧
    (∀ (fs : FrameSize) (device_rate : Nat),
        fs.get_input device_rate = device_rate * fs.get_number / 48000) ∧
    FrameSize.FS960.size SampleRate.SR24 = 480 ∧
    FrameSize.FS960.time = 20000 :=
  ⟨fun _ _ => rfl, fun _ => rfl, fun _ _ => rfl, by decide, by decide⟩

/-- C3: while the stop flag is set, a device callback invocation discards the
delivered samples without encoding and leaves the accumulation buffer empty,
producing no packets; the pacing loop's exit condition reads only the kill
flag (so setting the stop flag cannot terminate the thread, and the thread
stays alive while the kill flag is clear); after the stop flag is cleared,
the next callback processes only the newly delivered samples, without
replaying the discarded audio. -/
theorem stop_flag_discards {σ : Type} (ifs : Nat)
    (step : σ → List ℚ → σ × Option (List Nat)) (st st2 : σ)
    (extra data data2 : List ℚ) (m : ManagerFlags) (b : Bool) :
    deviceCallback ifs step true st extra data =
      { st := st, extra := [], packets := [], encodes := 0, frames := [] } ∧
    (m.stopStore b).stop = b ∧
    (m.stopStore b).kill = m.kill ∧
    pacingPollExits (m.stopStore b).kill = pacingPollExits m.kill ∧
    pacingPollExits false = false ∧
    deviceCallback ifs step false st2
        (deviceCallback ifs step true st extra data).extra data2 =
      encodeLoop ifs step st2 data2 := by
  refine ⟨rfl, rfl, rfl, rfl, rfl, ?_⟩
  simp [deviceCallback]

/-- Helper: the pacing loop returns at the first poll index at which the kill
flag reads `true`, which is no later than any index where it is `true`. -/
theorem pacingLoop_exits_early (kill : Nat → Bool) :
    ∀ (fuel start n : Nat), start ≤ n → n < start + fuel → kill n = true →
      ∃ i, start ≤ i ∧ i ≤ n ∧ pacingLoop kill start fuel = some i ∧
        kill i = true := by
  intro fuel
  induction fuel with
  | zero =>
    intro start n h1 h2 h3
    omega
  | succ fuel ih =>
    intro start n h1 h2 h3
    by_cases hk : kill start = true
    · exact ⟨start, le_refl _, h1, by simp [pacingLoop, pacingPollExits, hk], hk⟩
    · have hne : start ≠ n := fun he => hk (he ▸ h3)
      obtain ⟨i, hi1, hi2, hi3, hi4⟩ := ih (start + 1) n (by omega) (by omega) h3
      refine ⟨i, by omega, hi2, ?_, hi4⟩
      simp [pacingLoop, pacingPollExits, hk]
      exact hi3

/-- C4: once the kill flag is set — by `kill()` or by dropping the
`AudioManager`, whose `Drop` impl sets it — the pacing loop exits at its next
poll of the flag: if the flag reads `true` at poll `n`, the loop returns at
some poll `i ≤ n`, i.e. within one pacing interval of the flag being set. -/
theorem kill_terminates_pacing_loop (m : ManagerFlags) (kill : Nat → Bool)
    (n fuel : Nat) (hset : kill n = true) (hfuel : n < fuel) :
    m.dropManager.kill = true ∧ m.killStore.kill = true ∧
    ∃ i, i ≤ n ∧ pacingLoop kill 0 fuel = some i ∧ kill i = true := by
  refine ⟨rfl, rfl, ?_⟩
  obtain ⟨i, _, hi2, hi3, hi4⟩ :=
    pacingLoop_exits_early kill fuel 0 n (Nat.zero_le _) (by omega) hset
  exact ⟨i, hi2, hi3, hi4⟩

/-- Witness for `kill_terminates_pacing_loop` with the flag set from poll 2
onward and fuel 5. -/
theorem kill_terminates_pacing_loop_witness :
    (fun j => decide (2 ≤ j)) 2 = true ∧ 2 < 5 ∧
    ((⟨false, false⟩ : ManagerFlags).dropManager.kill = true ∧
      (⟨false, false⟩ : ManagerFlags).killStore.kill = true ∧
      ∃ i, i ≤ 2 ∧ pacingLoop (fun j => decide (2 ≤ j)) 0 5 = some i ∧
        (fun j => decide (2 ≤ j)) i = true) :=
  ⟨by decide, by decide,
    kill_terminates_pacing_loop ⟨false, false⟩ (fun j => decide (2 ≤ j)) 2 5
      (by decide) (by decide)⟩

/-- C5: transient per-call failures are skipped silently and processing
continues: a zero-length encode result sends nothing through the channel
while the drain loop still consumes the frame and goes on, and a packet whose
decode fails or yields zero samples delivers no frame to the sink while
decoding continues with the next packet, in the receive-decode loops and in
`decode`. -/
theorem transient_failures_skipped {σ τ : Type} (ifs : Nat)
    (step : σ → List ℚ → σ × Option (List Nat)) (st st2 : σ) (extra : List ℚ)
    (dec : τ → List Nat → τ × Option Nat) (dst dst2 : τ)
    (p : List Nat) (rest : List (List Nat))
    (h1 : 0 < ifs) (h2 : ifs ≤ extra.length)
    (hz : step st (extra.take ifs) = (st2, some []))
    (hd : dec dst p = (dst2, none) ∨ dec dst p = (dst2, some 0)) :
    (encodeLoop ifs step st extra).packets =
      (encodeLoop ifs step st2 (extra.drop ifs)).packets ∧
    (encodeLoop ifs step st extra).encodes =
      (encodeLoop ifs step st2 (extra.drop ifs)).encodes + 1 ∧
    decodeDeliveries dec dst (p :: rest) = decodeDeliveries dec dst2 rest ∧
    decodeOne dec dst p = (dst2, none) := by
  rw [encodeLoop_succ ifs step st extra h1 h2]
  refine ⟨by simp [hz], by simp [hz], ?_, ?_⟩
  · rcases hd with hd | hd
    · simp [decodeDeliveries, hd]
    · simp [decodeDeliveries, hd]
  · rcases hd with hd | hd
    · simp [decodeOne, hd]
    · simp [decodeOne, hd]

/-- Witness for `transient_failures_skipped` with a one-frame buffer, an
encoder returning a zero-length packet, and a decoder that always errs. -/
theorem transient_failures_skipped_witness :
    0 < 1 ∧ 1 ≤ ([(0:ℚ)]).length ∧
    (fun (u : Unit) (_f : List ℚ) => (u, some ([] : List Nat))) ()
        (([(0:ℚ)]).take 1) = ((), some ([] : List Nat)) ∧
    ((fun (u : Unit) (_q : List Nat) => (u, (none : Option Nat))) () [7] =
        ((), (none : Option Nat)) ∨
      (fun (u : Unit) (_q : List Nat) => (u, (none : Option Nat))) () [7] =
        ((), some 0)) ∧
    ((encodeLoop 1 (fun (u : Unit) (_f : List ℚ) => (u, some ([] : List Nat))) ()
        [(0:ℚ)]).packets =
      (encodeLoop 1 (fun (u : Unit) (_f : List ℚ) => (u, some ([] : List Nat))) ()
        (([(0:ℚ)]).drop 1)).packets ∧
    (encodeLoop 1 (fun (u : Unit) (_f : List ℚ) => (u, some ([] : List Nat))) ()
        [(0:ℚ)]).encodes =
      (encodeLoop 1 (fun (u : Unit) (_f : List ℚ) => (u, some ([] : List Nat))) ()
        (([(0:ℚ)]).drop 1)).encodes + 1 ∧
    decodeDeliveries (fun (u : Unit) (_q : List Nat) => (u, (none : Option Nat)))
        () [[7]] =
      decodeDeliveries (fun (u : Unit) (_q : List Nat) => (u, (none : Option Nat)))
        () [] ∧
    decodeOne (fun (u : Unit) (_q : List Nat) => (u, (none : Option Nat))) () [7] =
      ((), (none : Option Nat))) :=
  ⟨by decide, by decide, rfl, Or.inl rfl,
    transient_failures_skipped 1
      (fun (u : Unit) (_f : List ℚ) => (u, some ([] : List Nat))) () () [(0:ℚ)]
      (fun (u : Unit) (_q : List Nat) => (u, (none : Option Nat))) () () [7] []
      (by decide) (by decide) rfl (Or.inl rfl)⟩

/-- C6 counterexample: with the 2880-sample scratch buffer and nominal frame
length 480, a resampler invocation that actually produced only 1 sample still
results in the encoder receiving the 480-sample slice `&buffer[..frame_size]`,
not the 1-sample actual output the claim describes. -/
theorem resampled_slice_nominal_counterexample :
    resampledEncoderInput scratchBuffer 480 [(1:ℚ)] ≠
      specResampledEncoderInput [(1:ℚ)] ∧
    (resampledEncoderInput scratchBuffer 480 [(1:ℚ)]).length = 480 ∧
    (specResampledEncoderInput [(1:ℚ)]).length = 1 := by
  refine ⟨?_, ?_, rfl⟩
  · intro hcontra
    have hlen := congrArg List.length hcontra
    have hsb : scratchBuffer.length = 2880 := List.length_replicate 2880 0
    simp only [resampledEncoderInput, specResampledEncoderInput, List.length_take,
      List.length_append, List.length_drop, List.length_cons, List.length_nil,
      hsb] at hlen
    omega
  · have hsb : scratchBuffer.length = 2880 := List.length_replicate 2880 0
    simp only [resampledEncoderInput, List.length_take, List.length_append,
      List.length_drop, List.length_cons, List.length_nil, hsb]
    omega

/-- C6 amended: when the resampler stage is present, the sample slice passed
to the encoder for each frame always has the nominal target frame length
(`&buffer[..frame_size]`), regardless of the actual length the resampler
invocation produced. -/
theorem resampled_slice_has_nominal_length (buffer written : List ℚ)
    (frame_size : Nat) (_hw : written.length ≤ frame_size)
    (hb : frame_size ≤ buffer.length) :
    (resampledEncoderInput buffer frame_size written).length = frame_size := by
  simp only [resampledEncoderInput, List.length_take, List.length_append,
    List.length_drop]
  omega

/-- Witness for `resampled_slice_has_nominal_length` on the scratch buffer at
nominal length 480 with a 1-sample resampler output. -/
theorem resampled_slice_has_nominal_length_witness :
    ([(1:ℚ)]).length ≤ 480 ∧ 480 ≤ scratchBuffer.length ∧
    (resampledEncoderInput scratchBuffer 480 [(1:ℚ)]).length = 480 :=
  ⟨by decide, by norm_num [scratchBuffer],
    resampled_slice_has_nominal_length scratchBuffer [(1:ℚ)] 480 (by decide)
      (by norm_num [scratchBuffer])⟩

/-- C7 counterexample: the stream is opened with a one-channel config, and
the callback appends the delivered slice verbatim; on the delivered pair
`[1, 0]` this differs from the spec's averaging down-mix, which would append
`[1/2]`. -/
theorem downmix_counterexample :
    streamConfigChannels = 1 ∧
    callbackAppend [] [(1:ℚ), 0] ≠ specDownmixAppend [] [(1:ℚ), 0] := by
  refine ⟨rfl, ?_⟩
  intro hcontra
  have hlen := congrArg List.length hcontra
  simp only [callbackAppend, specDownmixAppend, downmixPairs, List.nil_append,
    List.length_cons, List.length_nil] at hlen
  omega

/-- C7 amended: the input stream is configured with exactly one channel, and
the callback appends the delivered samples to the accumulation buffer
verbatim (`extra.extend(data)`); no down-mixing or averaging of channel pairs
occurs anywhere in the callback. -/
theorem callback_appends_verbatim {σ : Type} (ifs : Nat)
    (step : σ → List ℚ → σ × Option (List Nat)) (st : σ)
    (extra data : List ℚ) :
    streamConfigChannels = 1 ∧
    callbackAppend extra data = extra ++ data ∧
    deviceCallback ifs step false st extra data =
      encodeLoop ifs step st (callbackAppend extra data) :=
  ⟨rfl, rfl, rfl⟩

/-- C8 counterexample: at the default configuration (the closest the record
comes to an "unset" configuration — it has no enabled/disabled field at all),
`AudioManager::new` still spawns the capture thread. -/
theorem enabled_flag_counterexample :
    (managerNew AudioSettings.defaultSettings).threadSpawned = true := rfl

/-- C8 amended: `AudioSettings` carries no enabled/disabled flag, and
`AudioManager::new` unconditionally spawns the capture thread for every
settings value, initialising both shared flags to `false`; no configuration
makes the session a permanently empty producer by skipping the spawn. -/
theorem capture_thread_always_spawned (s : AudioSettings) :
    (managerNew s).threadSpawned = true ∧
    (managerNew s).flags.kill = false ∧
    (managerNew s).flags.stop = false :=
  ⟨rfl, rfl, rfl⟩

/-- C9: the code contradicts the no-panic design: an `Err` from encoder
construction reaches `.unwrap()` at thread setup and an `Err` from the
per-call resampler reaches `.unwrap()` inside the device callback, so both
evaluate to a panic rather than the recoverable log-and-exit or skip paths
the claim requires. -/
theorem unwrap_panics_on_native_failure :
    encoderNewStep none = Except.error CapturePanic.encoderNewFailed ∧
    resampleProcessStep none = Except.error CapturePanic.resamplerProcessFailed :=
  ⟨rfl, rfl⟩

/-- C10: under the decoder boundary contract that a successful decode into
the 2048-sample scratch buffer reports at most 2048 samples, every slice
delivered to the caller's sink by the receive-decode loops or by `decode`
has length at least 1 and at most 2048; a packet whose decode reports zero
samples or fails delivers nothing. -/
theorem delivered_slice_length_bounds {τ : Type}
    (dec : τ → List Nat → τ × Option Nat)
    (hcap : ∀ (st : τ) (p : List Nat) (len : Nat),
      (dec st p).2 = some len → len ≤ 2048) :
    (∀ (st : τ) (queue : List (List Nat)) (len : Nat),
        len ∈ (decodeDeliveries dec st queue).2 → 1 ≤ len ∧ len ≤ 2048) ∧
    (∀ (st : τ) (p : List Nat) (len : Nat),
        (decodeOne dec st p).2 = some len → 1 ≤ len ∧ len ≤ 2048) := by
  constructor
  · intro st queue
    induction queue generalizing st with
    | nil =>
      intro len h
      simp [decodeDeliveries] at h
    | cons p rest ih =>
      intro len h
      have hcp := hcap st p
      simp only [decodeDeliveries] at h
      rcases hdp : dec st p with ⟨st1, r⟩
      rw [hdp] at h
      rcases r with _ | l
      · exact ih st1 len h
      · have hle : l ≤ 2048 := hcp l (by rw [hdp])
        by_cases hl0 : l = 0
        · subst hl0
          simp at h
          exact ih st1 len h
        · simp [hl0] at h
          rcases h with h | h
          · subst h
            omega
          · exact ih st1 len h
  · intro st p len h
    have hcp := hcap st p
    simp only [decodeOne] at h
    rcases hdp : dec st p with ⟨st1, r⟩
    rw [hdp] at h
    rcases r with _ | l
    · simp at h
    · have hle : l ≤ 2048 := hcp l (by rw [hdp])
      by_cases hl0 : l = 0
      · subst hl0
        simp at h
      · simp [hl0] at h
        omega

/-- Witness for `delivered_slice_length_bounds` with a concrete decoder that
always reports one sample. -/
theorem delivered_slice_length_bounds_witness :
    (∀ (st : Unit) (p : List Nat) (len : Nat),
        ((fun (u : Unit) (_q : List Nat) => (u, some 1)) st p).2 = some len →
          len ≤ 2048) ∧
    ((∀ (st : Unit) (queue : List (List Nat)) (len : Nat),
        len ∈ (decodeDeliveries (fun (u : Unit) (_q : List Nat) => (u, some 1))
          st queue).2 → 1 ≤ len ∧ len ≤ 2048) ∧
      (∀ (st : Unit) (p : List Nat) (len : Nat),
        (decodeOne (fun (u : Unit) (_q : List Nat) => (u, some 1)) st p).2 =
          some len → 1 ≤ len ∧ len ≤ 2048)) := by
  have hcap : ∀ (st : Unit) (p : List Nat) (len : Nat),
      ((fun (u : Unit) (_q : List Nat) => (u, some 1)) st p).2 = some len →
        len ≤ 2048 := by
    intro st p len hl
    simp at hl
    omega
  exact ⟨hcap, delivered_slice_length_bounds _ hcap⟩

end BevyMicrophone
